import Mathlib

/-!
Verification of the optimization workflows in `mmtpy_opt_workflows.py`
(`optimize_model` and `optimize_model_mbx`), shallowly embedded in Lean.

Flux values are modelled as rationals (the Python code manipulates floats
only through the external LP solver, which is modelled as an oracle
function); reaction identifiers are strings; the in-place mutation of the
cobra `Model` object is modelled by explicit state passing.
-/

namespace CobraGemm

/-- Substring test on character lists: Python's `pat in s`. -/
def containsSub (pat : List Char) : List Char → Bool
  | [] => pat.isEmpty
  | c :: tl => pat.isPrefixOf (c :: tl) || containsSub pat tl

/-- Fuel-driven worker for `removeAll` (structural recursion on the fuel so
that the kernel can evaluate it; the fuel never runs out when it starts at
the length of the input). -/
def removeAllF (pat : List Char) : Nat → List Char → List Char
  | _, [] => []
  | 0, l => l
  | fuel + 1, c :: tl =>
    if pat.isPrefixOf (c :: tl) ∧ pat ≠ [] then
      removeAllF pat fuel (tl.drop (pat.length - 1))
    else
      c :: removeAllF pat fuel tl

/-- Python's `s.replace(pat, "")`: remove every (leftmost, non-overlapping)
occurrence of `pat` from `s`. -/
def removeAll (pat l : List Char) : List Char := removeAllF pat l.length l

/-- Split a character list at the first occurrence of `sep`, returning the
parts before and after it; `none` when `sep` does not occur. -/
def splitFirstSep (sep : List Char) : List Char → Option (List Char × List Char)
  | [] => none
  | c :: tl =>
    if sep.isPrefixOf (c :: tl) then
      some ([], (c :: tl).drop sep.length)
    else
      match splitFirstSep sep tl with
      | some (a, b) => some (c :: a, b)
      | none => none

/-- Python's `s.split("\n")` on character lists. -/
def splitLines : List Char → List (List Char)
  | [] => [[]]
  | c :: tl =>
    if c = '\n' then [] :: splitLines tl
    else
      match splitLines tl with
      | h :: t => (c :: h) :: t
      | [] => [[c]]

/-- `pat in s` for strings (Python substring membership). -/
def strContains (s pat : String) : Bool := containsSub pat.data s.data

/-- `s.startswith(pat)`. -/
def strStartsWith (s pat : String) : Bool := pat.data.isPrefixOf s.data

/-- `s.endswith(pat)`. -/
def strEndsWith (s pat : String) : Bool := pat.data.isSuffixOf s.data

/-- Python dict assignment `d[k] = v`: update in place when the key exists
(keeping its position), otherwise append, preserving insertion order. -/
def dinsert {α : Type} (d : List (String × α)) (k : String) (v : α) :
    List (String × α) :=
  if d.any (fun p => p.1 == k) then
    d.map (fun p => if p.1 == k then (k, v) else p)
  else
    d ++ [(k, v)]

/-- Objective sense of one LP solve. -/
inductive Sense
  | minimize
  | maximize
deriving DecidableEq

/-- A reaction: identifier and flux bounds (`rxn.id`, `rxn.lower_bound`,
`rxn.upper_bound` in cobra). -/
structure Reaction where
  id : String
  lb : Rat
  ub : Rat
deriving DecidableEq

/-- A cobra model: named, with a reaction collection, a metabolite table
(metabolite id ↦ ids of the reactions that reference it, `met.reactions`
in cobra), a solver name and an injected-constraint set. -/
structure Model where
  name : String
  reactions : List Reaction
  metabolites : List (String × List String)
  solver : String
  cons : List String
deriving DecidableEq

/-- `model.reactions.get_by_id(rid)` (as an `Option`; a miss is a fatal
`KeyError` in Python). -/
def Model.getReaction (m : Model) (rid : String) : Option Reaction :=
  m.reactions.find? (fun q => q.id == rid)

/-- `model.reactions.get_by_id(rid).bounds = b`: set the bounds of the
reaction with identifier `rid` (reaction ids are unique in cobra). -/
def Model.setBounds (m : Model) (rid : String) (b : Rat × Rat) : Model :=
  { m with
    reactions :=
      m.reactions.map (fun q =>
        if q.id == rid then { q with lb := b.1, ub := b.2 } else q) }

/-- `model.metabolites.get_by_id(mid).reactions` (ids only, as an `Option`). -/
def Model.metaboliteRxns (m : Model) (mid : String) : Option (List String) :=
  (m.metabolites.find? (fun p => p.1 == mid)).map (fun p => p.2)

/-- The reaction ids of a model have no duplicates (cobra's `DictList`
enforces unique identifiers; the spec's data model states the same). -/
def nodupIds (m : Model) : Prop := (m.reactions.map (fun r => r.id)).Nodup

instance (m : Model) : Decidable (nodupIds m) := by
  unfold nodupIds
  infer_instance

/-- One recorded LP solve: the model state at the moment of the call
(bounds and constraints), the objective reaction, the sense, and the
objective value the solver returned. -/
structure SolveCall where
  state : Model
  objective : String
  sense : Sense
  value : Rat
deriving DecidableEq

/-- An LP-solver oracle: objective value as a function of the model state
(bounds, constraints), the single objective reaction and the sense.  The
actual simplex computation is external to the repository. -/
def Solver : Type := Model → String → Sense → Rat

/-- The argument `model_input` of both workflows: a loaded model, a path
string, or a value of any other type. -/
inductive ModelInput
  | model (m : Model)
  | path (s : String)
  | other
deriving DecidableEq

/-- Errors raised by the workflows: the `ValueError` for a bad
`model_input`, and the `KeyError` of a failed `get_by_id` lookup. -/
inductive WorkflowError
  | invalidInput
  | lookupFailure
deriving DecidableEq

/-!  ### `optimize_model` (lines 13-196 of `mmtpy_opt_workflows.py`)  -/

/-- Lines 88-98: the diet 1ba bile-acid condition on one reaction —
`"Diet_" in rxn.id and rxn.lower_bound != 0` and one of the four fixed
bile-acid substrings occurs in the id. -/
def dietCond (r : Reaction) : Bool :=
  strContains r.id "Diet_" && r.lb != 0 &&
    (strContains r.id "dgchol" || strContains r.id "gchola" ||
      strContains r.id "tchola" || strContains r.id "tdchola")

/-- Lines 88-98: the `add_1ba` loop — for every reaction satisfying
`dietCond`, force its bounds to `(-1000.0, 0.0)` via `get_by_id`. -/
def addDietBounds (m : Model) : Model :=
  m.reactions.foldl
    (fun acc r => if dietCond r then acc.setBounds r.id (-1000, 0) else acc) m

/-- Lines 107-110: ids of all reactions with `"UFEt_" in rxn.id`, in
collection order. -/
def ufetIds (m : Model) : List String :=
  (m.reactions.filter (fun r => strContains r.id "UFEt_")).map (fun r => r.id)

/-- Lines 112-126 (Part 1): maximize each UFEt reaction independently;
only the objective is reassigned between solves, so every solve sees the
same bounds. -/
def part1Fluxes (solve : Solver) (m : Model) : List Rat :=
  (ufetIds m).map (fun rid => solve m rid Sense.maximize)

/-- Line 162: metabolite id derived from a transporter id —
`rxn_id.replace("UFEt_", "") + "[u]"`. -/
def metaboliteOf (rid : String) : String :=
  String.mk (removeAll "UFEt_".data rid.data) ++ "[u]"

/-- The state threaded through the Part 2 loop: the (mutated) model, the
`minimized_IEX_flux_dict` under construction, and the trace of LP solves
performed so far. -/
structure P2State where
  model : Model
  dict : List (String × Rat)
  trace : List SolveCall
deriving DecidableEq

/-- Lines 165-172: the inner loop over `model.metabolites.get_by_id(met)
.reactions` — for each reaction whose id contains `"IEX"`, set it as the
objective, solve with minimize sense and record the value. -/
def iexLoop (solve : Solver) (m1 : Model) :
    List String → List (String × Rat) → List SolveCall →
    Option (List (String × Rat) × List SolveCall)
  | [], d, tr => some (d, tr)
  | rid :: rest, d, tr =>
    if strContains rid "IEX" then
      match m1.getReaction rid with
      | none => none
      | some r =>
        let v := solve m1 r.id Sense.minimize
        iexLoop solve m1 rest (dinsert d r.id v)
          (tr ++ [⟨m1, r.id, Sense.minimize, v⟩])
    else
      iexLoop solve m1 rest d tr

/-- Lines 145-178: one iteration of the Part 2 loop for transporter `rid`
with Part 1 maximum `flux` — skip when the maximum is exactly `0.0`,
otherwise save the transporter's bounds, pin them to `(flux, flux)`,
minimize every IEX reaction of the derived metabolite, then restore the
saved bounds. -/
def part2Step (solve : Solver) (st : P2State) (rid : String) (flux : Rat) :
    Option P2State :=
  if flux ≠ 0 then
    match st.model.getReaction rid with
    | none => none
    | some r =>
      let saved := (r.lb, r.ub)
      let m1 := st.model.setBounds rid (flux, flux)
      let metab := metaboliteOf rid
      match m1.metaboliteRxns metab with
      | none => none
      | some mrxns =>
        match iexLoop solve m1 mrxns st.dict st.trace with
        | none => none
        | some (d, tr) => some ⟨m1.setBounds rid saved, d, tr⟩
  else
    some st

/-- Lines 142-178: the whole Part 2 loop over the transporter / maximum
pairs, in Part 1 order. -/
def part2 (solve : Solver) (m : Model) (pairs : List (String × Rat)) :
    Option P2State :=
  pairs.foldlM (fun st p => part2Step solve st p.1 p.2) ⟨m, [], []⟩

/-- Lines 181-183: the final bounds snapshot
(`model_rxn_bounds_dict[rxn.id] = rxn.bounds` over all reactions). -/
def boundsSnapshot (m : Model) : List (String × (Rat × Rat)) :=
  m.reactions.foldl (fun d r => dinsert d r.id (r.lb, r.ub)) []

/-- Lines 186-188 and 323-328: the result-file body — one
`id:\tvalue\n` line per map entry, written in insertion order. -/
def writeEntryLines : List (String × String) → List Char
  | [] => []
  | (k, v) :: rest => k.data ++ [':', '\t'] ++ v.data ++ ['\n'] ++ writeEntryLines rest

/-- Rendering of a flux value into the output file (Python interpolates
the float; the numeral syntax differs but plays no role in any claim). -/
def renderRat (q : Rat) : String := toString q

/-- File body for a flux map. -/
def fluxFile (d : List (String × Rat)) : List Char :=
  writeEntryLines (d.map (fun p => (p.1, renderRat p.2)))

/-- External collaborators of `optimize_model` (the `mmtpy_utils` module is
not part of `src/`).  `loadModel` — Modelled from the spec:
`load(path, options) -> Model`.  `setDefaultBounds` — Modelled from the
spec: `setDefaultBounds(model, reactionClass, silent)` normalizes the
bounds of the FEX reaction class; per the spec its `silent` flag only
suppresses console output, so the model transformation takes no silent
argument and `sdbLog` carries the lines it would print. -/
structure Externals where
  loadModel : String → Model
  setDefaultBounds : Model → Model
  sdbLog : Model → List String
  solve : Solver

/-- The observable outcome of one `optimize_model` run: the returned value
(`None` unless `return_outputs`), the body of the written
`<name>_opt_flux.txt` file, and the console output. -/
structure OptRun where
  ret : Option (List (String × Rat) × List (String × Rat) ×
    List (String × (Rat × Rat)))
  file : List Char
  console : List String
deriving DecidableEq

/-- Lines 85-98: the model after the default-bound normalization and the
optional diet override, i.e. the state Part 1 starts from. -/
def preModel (ext : Externals) (m : Model) (add_1ba : Bool) : Model :=
  let m1 := ext.setDefaultBounds m
  if add_1ba then addDietBounds m1 else m1

/-- Line 129: `maximized_UFEt_flux_dict = dict(zip(UFEt_rxn_list,
maximized_UFEt_flux_list))`. -/
def maxPairs (solve : Solver) (m : Model) : List (String × Rat) :=
  (ufetIds m).zip (part1Fluxes solve m)

/-- The Part 2 run of `optimize_model` on the prepared model. -/
def p2Run (ext : Externals) (m : Model) (add_1ba : Bool) : Option P2State :=
  part2 ext.solve (preModel ext m add_1ba)
    (maxPairs ext.solve (preModel ext m add_1ba))

/-- Lines 84-196 of `optimize_model`, after input resolution. -/
def optimizeModelCore (ext : Externals) (m : Model)
    (add_1ba silent return_outputs parallel : Bool) :
    Except WorkflowError OptRun :=
  let m2 := preModel ext m add_1ba
  let maxDict := maxPairs ext.solve m2
  match p2Run ext m add_1ba with
  | none => Except.error WorkflowError.lookupFailure
  | some st =>
    Except.ok
      { ret :=
          if return_outputs then
            some (maxDict, st.dict, boundsSnapshot st.model)
          else none
        file := fluxFile st.dict
        console :=
          (if parallel then ["[STARTED] 'optimize_model' workflow"]
            else ["optimize_model 0.1.0-beta"]) ++
          (if silent then [] else ext.sdbLog m) ++
          (if parallel then ["[DONE] 'optimize_model' workflow"]
            else
              ["[STARTED] Part 1: maximizing UFEt fluxes for " ++ m2.name] ++
              maxDict.map (fun p => "\t\t" ++ p.1 ++ ":\t" ++ renderRat p.2) ++
              ["[DONE] Part 1: maximization complete for " ++ m2.name,
               "[STARTED] Part 2: minimizing IEX fluxes for " ++ m2.name] ++
              st.trace.map
                (fun c => "\t\t" ++ c.objective ++ ":\t" ++ renderRat c.value) ++
              ["[DONE] Part 2: minimization complete for " ++ m2.name]) }

/-- Lines 13-196: the whole `optimize_model` workflow.  The `isinstance`
dispatch on `model_input` comes first; any other type raises the
`ValueError` before any model mutation or solve. -/
def optimize_model (ext : Externals) (model_input : ModelInput)
    (add_1ba silent return_outputs parallel : Bool) :
    Except WorkflowError OptRun :=
  match model_input with
  | ModelInput.model m =>
      optimizeModelCore ext m add_1ba silent return_outputs parallel
  | ModelInput.path p =>
      optimizeModelCore ext (ext.loadModel p) add_1ba silent return_outputs
        parallel
  | ModelInput.other => Except.error WorkflowError.invalidInput

/-!  ### `optimize_model_mbx` (lines 199-335 of `mmtpy_opt_workflows.py`)  -/

/-- External collaborators of `optimize_model_mbx`.  `fetchNorm` —
Modelled from the spec: `normalizeSampleData` returns a metabolite ↦
normalized-value mapping, with `silent` suppressing console output only
(`fetchNormLog`).  `fetchConstr` — Modelled from the spec:
`buildConstraints(model, normalizedMap) -> constraint set`.
`solveConstr` — Modelled from the spec: `resolveInfeasibility(model,
constraints, parallel) -> finalConstraint set`; per the spec `parallel`
changes no solving semantics, only console verbosity (`solveConstrLog`). -/
structure MbxExternals where
  loadModel : String → Model
  setDefaultBounds : Model → Model
  sdbLog : Model → List String
  fetchNorm : Model → List (String × Rat)
  fetchNormLog : Model → List String
  fetchConstr : Model → List (String × Rat) → List String
  solveConstr : Model → List String → List String
  solveConstrLog : Model → List String → List String
  solve : Solver

/-- Lines 258-284: the model state after solver selection, metabolomics
normalization, FEX default-bound setting, constraint building/relaxation
and constraint injection — the state every sweep solve runs against. -/
def mbxConstrainedModel (ext : MbxExternals) (m0 : Model) : Model :=
  let m1 := { m0 with solver := "gurobi" }
  let norm := ext.fetchNorm m1
  let m2 := ext.setDefaultBounds m1
  let cs := ext.fetchConstr m2 norm
  let cs2 := ext.solveConstr m2 cs
  { m2 with cons := m2.cons ++ cs2 }

/-- Lines 290-294 and 308-312: ids of all reactions whose id starts with
`"EX_"` and ends with `"[fe]"`, in collection order. -/
def fexIds (m : Model) : List String :=
  (m.reactions.filter
    (fun r => strStartsWith r.id "EX_" && strEndsWith r.id "[fe]")).map
    (fun r => r.id)

/-- Lines 290-302 / 308-320: one sweep — for each listed reaction id, set
it as the objective via `get_by_id`, solve with the given sense, record
the value under the id.  Only the objective is reassigned between
solves. -/
def sweep (solve : Solver) (m : Model) (sense : Sense) :
    List String → List (String × Rat) → List SolveCall →
    Option (List (String × Rat) × List SolveCall)
  | [], d, tr => some (d, tr)
  | rid :: rest, d, tr =>
    match m.getReaction rid with
    | none => none
    | some _ =>
      let v := solve m rid sense
      sweep solve m sense rest (dinsert d rid v) (tr ++ [⟨m, rid, sense, v⟩])

/-- A whole sweep over the fecal-exchange reactions of `m`. -/
def sweepAll (solve : Solver) (m : Model) (sense : Sense) :
    Option (List (String × Rat) × List SolveCall) :=
  sweep solve m sense (fexIds m) [] []

/-- Lines 297-301 / 315-319: a sweep's console lines — a value is printed
iff it is non-zero or `verbose` is set, and never under `parallel`. -/
def sweepLog (solve : Solver) (m : Model) (sense : Sense)
    (label : String) (verbose parallel : Bool) : List String :=
  if parallel then []
  else
    (fexIds m).filterMap (fun rid =>
      if solve m rid sense != 0 || verbose then
        some ("\t" ++ label ++ rid ++ ":\t" ++ renderRat (solve m rid sense))
      else none)

/-- The observable outcome of one `optimize_model_mbx` run: the returned
value (`None` unless `return_outputs`), the bodies of the two written
files, the two sweeps' solve traces, and the console output. -/
structure MbxRun where
  ret : Option (List (String × Rat) × List (String × Rat))
  fileMin : List Char
  fileMax : List Char
  traceMin : List SolveCall
  traceMax : List SolveCall
  console : List String
deriving DecidableEq

/-- Lines 258-335 of `optimize_model_mbx`, after input resolution. -/
def mbxCore (ext : MbxExternals) (m0 : Model)
    (silent verbose return_outputs parallel : Bool) :
    Except WorkflowError MbxRun :=
  let mc := mbxConstrainedModel ext m0
  match sweepAll ext.solve mc Sense.minimize with
  | none => Except.error WorkflowError.lookupFailure
  | some (dmin, trmin) =>
    match sweepAll ext.solve mc Sense.maximize with
    | none => Except.error WorkflowError.lookupFailure
    | some (dmax, trmax) =>
      Except.ok
        { ret := if return_outputs then some (dmin, dmax) else none
          fileMin := fluxFile dmin
          fileMax := fluxFile dmax
          traceMin := trmin
          traceMax := trmax
          console :=
            (if parallel then ["[STARTED] 'optimize_model_mbx' workflow"]
              else ["optimize_model_mbx 0.1.0-beta"]) ++
            (if silent then [] else ext.fetchNormLog mc) ++
            (if silent then [] else ext.sdbLog mc) ++
            (if parallel then [] else ext.solveConstrLog mc []) ++
            (if parallel then []
              else ["[Minimizing the model " ++ mc.name ++
                " for each metabolite]"]) ++
            sweepLog ext.solve mc Sense.minimize "Minimized: " verbose
              parallel ++
            (if parallel then []
              else ["[Maximizing the model " ++ mc.name ++
                " for each metabolite]"]) ++
            sweepLog ext.solve mc Sense.maximize "Maximized: " verbose
              parallel ++
            (if parallel then ["[DONE] 'optimize_model_mbx' workflow"]
              else []) }

/-- Lines 199-335: the whole `optimize_model_mbx` workflow.  The
`isinstance` dispatch on `model_input` comes first; any other type raises
the `ValueError` before any model mutation or solve. -/
def optimize_model_mbx (ext : MbxExternals) (model_input : ModelInput)
    (silent verbose return_outputs parallel : Bool) :
    Except WorkflowError MbxRun :=
  match model_input with
  | ModelInput.model m =>
      mbxCore ext m silent verbose return_outputs parallel
  | ModelInput.path p =>
      mbxCore ext (ext.loadModel p) silent verbose return_outputs parallel
  | ModelInput.other => Except.error WorkflowError.invalidInput

/-!  ### The spec's file reader (for the round-trip property)  -/

/-- The spec's reader: split the file body into lines, drop empty lines,
split each line at the first `":\t"` into an (id, value) pair. -/
def parseLine (l : List Char) : String × String :=
  match splitFirstSep [':', '\t'] l with
  | some (a, b) => (String.mk a, String.mk b)
  | none => (String.mk l, "")

/-- Read a result map back from a file body. -/
def readEntryLines (content : List Char) : List (String × String) :=
  ((splitLines content).filter (fun l => l ≠ [])).map parseLine

/-!  ### Derived views and witness material  -/

/-- The IEX reactions that Part 2 can reach through transporter `rid` in a
model with metabolite table `mets`: the reactions of the derived
metabolite whose id contains `"IEX"`. -/
def iexCandidates (mets : List (String × List String)) (rid : String) :
    List String :=
  match (mets.find? (fun p => p.1 == metaboliteOf rid)).map (fun p => p.2) with
  | some l => l.filter (fun x => strContains x "IEX")
  | none => []

/-- The pointwise effect of the diet-override step on one reaction. -/
def dietPatch (r : Reaction) : Reaction :=
  if dietCond r then { r with lb := -1000, ub := 0 } else r

/-- The non-console observables of an `optimize_model` run: returned value
and written file body. -/
def optView (e : Except WorkflowError OptRun) :
    Except WorkflowError
      (Option (List (String × Rat) × List (String × Rat) ×
        List (String × (Rat × Rat))) × List Char) :=
  e.map (fun r => (r.ret, r.file))

/-- The returned value of an `optimize_model` run. -/
def retView (e : Except WorkflowError OptRun) :
    Except WorkflowError
      (Option (List (String × Rat) × List (String × Rat) ×
        List (String × (Rat × Rat)))) :=
  e.map (fun r => r.ret)

/-- The non-console observables of an `optimize_model_mbx` run: returned
value and the two written file bodies. -/
def mbxView (e : Except WorkflowError MbxRun) :
    Except WorkflowError
      (Option (List (String × Rat) × List (String × Rat)) ×
        List Char × List Char) :=
  e.map (fun r => (r.ret, r.fileMin, r.fileMax))

/-- Did the run abort with the bad-`model_input` `ValueError`? -/
def isInvalidInput {α : Type} : Except WorkflowError α → Bool
  | Except.error WorkflowError.invalidInput => true
  | _ => false

/-- A concrete solver oracle for witnesses (constant value 1). -/
def solveW : Solver := fun _ _ _ => 1

/-- A concrete witness model: one transporter and one linked IEX
reaction. -/
def mW : Model :=
  { name := "m"
    reactions := [⟨"UFEt_a", 0, 10⟩, ⟨"IEX_a", -5, 5⟩]
    metabolites := [("a[u]", ["IEX_a"])]
    solver := ""
    cons := [] }

/-- `mW` with the transporter pinned to flux 1 (the intermediate state of
the Part 2 iteration). -/
def mWPinned : Model :=
  { name := "m"
    reactions := [⟨"UFEt_a", 1, 1⟩, ⟨"IEX_a", -5, 5⟩]
    metabolites := [("a[u]", ["IEX_a"])]
    solver := ""
    cons := [] }

/-- The Part 2 state reached from `mW` with transporter maximum 1. -/
def stW : P2State :=
  { model := mW
    dict := [("IEX_a", 1)]
    trace := [⟨mWPinned, "IEX_a", Sense.minimize, 1⟩] }

/-- A counterexample model for the metabolite-id derivation: the
transporter id contains `"UFEt_"` twice, and the two candidate metabolite
ids resolve to different IEX reactions. -/
def mReplace : Model :=
  { name := "m"
    reactions := [⟨"UFEt_UFEt_a", 0, 10⟩, ⟨"IEX_stripped", 0, 5⟩,
      ⟨"IEX_prefixed", 0, 5⟩]
    metabolites := [("a[u]", ["IEX_stripped"]), ("UFEt_a[u]", ["IEX_prefixed"])]
    solver := ""
    cons := [] }

/-- A model with no reactions at all (every phase is a no-op on it). -/
def emptyModel : Model :=
  { name := "m", reactions := [], metabolites := [], solver := "", cons := [] }

/-- A witness model with diet reactions for the diet-override claim. -/
def mDiet : Model :=
  { name := "m"
    reactions := [⟨"Diet_EX_gchola[d]", -5, 3⟩, ⟨"Diet_EX_glc_D[d]", -10, 2⟩,
      ⟨"EX_ac[fe]", 0, 1⟩]
    metabolites := []
    solver := ""
    cons := [] }

/-- Concrete externals for `optimize_model` witnesses: loading yields
`emptyModel`, bound normalization is the identity, no console output. -/
def extW : Externals :=
  { loadModel := fun _ => emptyModel
    setDefaultBounds := fun m => m
    sdbLog := fun _ => []
    solve := solveW }

/-- A witness model with one fecal-exchange reaction for the mbx sweep
claims. -/
def mFex : Model :=
  { name := "m"
    reactions := [⟨"EX_ac[fe]", -10, 10⟩, ⟨"UFEt_ac", 0, 10⟩]
    metabolites := []
    solver := ""
    cons := [] }

/-- Concrete externals for `optimize_model_mbx` witnesses: pure-identity
collaborators, no constraints, no console output. -/
def extMbxW : MbxExternals :=
  { loadModel := fun _ => emptyModel
    setDefaultBounds := fun m => m
    sdbLog := fun _ => []
    fetchNorm := fun _ => []
    fetchNormLog := fun _ => []
    fetchConstr := fun _ _ => []
    solveConstr := fun _ _ => []
    solveConstrLog := fun _ _ => []
    solve := solveW }

/-- The `MbxRun` produced by the witness mbx invocation (extracted by
matching; the invocation does succeed, as the witness theorems prove). -/
def mbxRunW : MbxRun :=
  match optimize_model_mbx extMbxW (ModelInput.model mFex) false false true
      false with
  | Except.ok r => r
  | Except.error _ => ⟨none, [], [], [], [], []⟩

/-- The first solve call of the witness mbx run. -/
def callW : SolveCall :=
  ⟨mbxConstrainedModel extMbxW mFex, "EX_ac[fe]", Sense.minimize, 1⟩

/-- The `OptRun` produced by the witness `optimize_model` invocation with
`return_outputs = True`. -/
def optRunW : OptRun :=
  match optimize_model extW (ModelInput.model mW) false false true false with
  | Except.ok r => r
  | Except.error _ => ⟨none, [], []⟩

/-- The `OptRun` produced by the witness `optimize_model` invocation with
`return_outputs = False`. -/
def optRunW0 : OptRun :=
  match optimize_model extW (ModelInput.model mW) false false false false with
  | Except.ok r => r
  | Except.error _ => ⟨none, [], []⟩

/-- The model the workflows actually operate on, as a function of
`model_input` (the `other` case never reaches this point: it raises). -/
def resolvedModelMbx (ext : MbxExternals) : ModelInput → Model
  | ModelInput.model m => m
  | ModelInput.path s => ext.loadModel s
  | ModelInput.other => emptyModel

/-- Concrete entries for the round-trip witness. -/
def entriesW : List (String × String) := [("IEX_a", "1"), ("IEX_b", "-2")]

end CobraGemm

namespace CobraGemm

/-!  ## Lemmas about the string helpers  -/

theorem removeAllF_congr (pat : List Char) :
    ∀ f₁ f₂ l, List.length l ≤ f₁ → List.length l ≤ f₂ →
      removeAllF pat f₁ l = removeAllF pat f₂ l := by
  intro f₁
  induction f₁ with
  | zero =>
    intro f₂ l h₁ _
    have hl : l = [] := List.eq_nil_of_length_eq_zero (Nat.le_zero.mp h₁)
    subst hl
    cases f₂ <;> rfl
  | succ f ih =>
    intro f₂ l h₁ h₂
    cases l with
    | nil => cases f₂ <;> rfl
    | cons c tl =>
      cases f₂ with
      | zero => simp at h₂
      | succ g =>
        simp only [List.length_cons] at h₁ h₂
        simp only [removeAllF]
        by_cases h : pat.isPrefixOf (c :: tl) = true ∧ pat ≠ []
        · rw [if_pos h, if_pos h]
          exact ih g _ (by rw [List.length_drop]; omega)
            (by rw [List.length_drop]; omega)
        · rw [if_neg h, if_neg h]
          exact congrArg (c :: ·) (ih g tl (by omega) (by omega))

theorem removeAll_cons (pat : List Char) (c : Char) (tl : List Char) :
    removeAll pat (c :: tl) =
      if pat.isPrefixOf (c :: tl) = true ∧ pat ≠ [] then
        removeAll pat (tl.drop (pat.length - 1))
      else c :: removeAll pat tl := by
  show removeAllF pat (c :: tl).length (c :: tl) = _
  simp only [List.length_cons, removeAllF]
  by_cases h : pat.isPrefixOf (c :: tl) = true ∧ pat ≠ []
  · rw [if_pos h, if_pos h]
    exact removeAllF_congr pat tl.length _ _ (by rw [List.length_drop]; omega)
      le_rfl
  · rw [if_neg h, if_neg h]
    rfl

theorem removeAll_not_contains (pat l : List Char)
    (h : containsSub pat l = false) : removeAll pat l = l := by
  induction l with
  | nil => rfl
  | cons c tl ih =>
    simp only [containsSub, Bool.or_eq_false_iff] at h
    rw [removeAll_cons, if_neg (fun hc => by rw [h.1] at hc; exact absurd hc.1 (by simp))]
    exact congrArg (c :: ·) (ih h.2)

theorem removeAll_prepend (pat l : List Char) (hp : pat ≠ []) :
    removeAll pat (pat ++ l) = removeAll pat l := by
  cases pat with
  | nil => exact absurd rfl hp
  | cons p ps =>
    rw [show (p :: ps) ++ l = p :: (ps ++ l) from rfl, removeAll_cons,
      if_pos ⟨by simp [List.isPrefixOf_iff_prefix], by simp⟩]
    simp only [List.length_cons, Nat.add_sub_cancel]
    rw [List.drop_left]

/-!  ## Claim C3  -/

/-- Claim C3 counterexample: the code computes the metabolite id with
`str.replace`, which removes every occurrence of `"UFEt_"`, not only a
leading prefix.  On the transporter id `"UFEt_" ++ "UFEt_a"` the derived
metabolite id is `"a[u]"`, not `"UFEt_a" ++ "[u]"`, and a Part 2 run on a
model carrying both candidate metabolites resolves the IEX reactions of
`"a[u]"`. -/
theorem metabolite_id_strip_prefix_counterexample :
    ("UFEt_UFEt_a" : String) = "UFEt_" ++ "UFEt_a" ∧
    metaboliteOf "UFEt_UFEt_a" = "a[u]" ∧
    metaboliteOf "UFEt_UFEt_a" ≠ "UFEt_a" ++ "[u]" ∧
    (part2 solveW mReplace [("UFEt_UFEt_a", 1)]).map P2State.dict =
      some [("IEX_stripped", 1)] :=
  ⟨by decide, by decide, by decide, by decide⟩

/-- Claim C3 (amended): in `optimize_model` Part 2 the metabolite id is
the transporter id with every occurrence of `"UFEt_"` removed, plus the
compartment suffix `"[u]"`; for a transporter id of the form
`"UFEt_" ++ s` where `s` itself contains no further `"UFEt_"` marker, the
looked-up metabolite id equals `s ++ "[u]"`. -/
theorem metabolite_id_removes_all_occurrences (s : String)
    (h : containsSub "UFEt_".data s.data = false) :
    metaboliteOf ("UFEt_" ++ s) = s ++ "[u]" := by
  unfold metaboliteOf
  rw [String.data_append, removeAll_prepend _ _ (by decide),
    removeAll_not_contains _ _ h]

/-- Witness for the amended C3 theorem at the id `"UFEt_acetate"`. -/
theorem metabolite_id_removes_all_occurrences_witness :
    containsSub "UFEt_".data "acetate".data = false ∧
    metaboliteOf ("UFEt_" ++ "acetate") = "acetate" ++ "[u]" :=
  ⟨by decide, metabolite_id_removes_all_occurrences "acetate" (by decide)⟩

/-!  ## Lemmas about the file format  -/

theorem splitLines_append (a rest : List Char) (h : '\n' ∉ a) :
    splitLines (a ++ '\n' :: rest) = a :: splitLines rest := by
  induction a with
  | nil => simp [splitLines]
  | cons c a' ih =>
    have hc : ¬(c = '\n') := fun hc => h (hc ▸ List.mem_cons_self c a')
    simp only [List.cons_append, splitLines, if_neg hc, List.append_eq]
    rw [ih (fun hm => h (List.mem_cons_of_mem c hm))]

theorem splitFirstSep_junction (a b : List Char)
    (h : containsSub [':', '\t'] a = false) :
    splitFirstSep [':', '\t'] (a ++ ':' :: '\t' :: b) = some (a, b) := by
  induction a with
  | nil => simp [splitFirstSep, List.isPrefixOf, List.drop]
  | cons c a' ih =>
    simp only [containsSub, Bool.or_eq_false_iff] at h
    have hpre : List.isPrefixOf [':', '\t'] (c :: (a' ++ ':' :: '\t' :: b)) = false := by
      by_cases hcc : c = ':'
      · subst hcc
        cases a' with
        | nil => simp [List.isPrefixOf]
        | cons d a'' =>
          have hd := h.1
          simp only [List.isPrefixOf, Bool.and_eq_false_iff, beq_self_eq_true,
            Bool.true_eq_false, false_or, or_false] at hd
          have hd' : ¬ ('\t' = d) := by
            intro he
            subst he
            simp at hd
          simp [List.isPrefixOf, hd']
      · have : (':' == c) = false := beq_eq_false_iff_ne.mpr (Ne.symm hcc)
        simp [List.isPrefixOf, this]
    simp only [List.cons_append, List.append_eq, splitFirstSep, hpre,
      Bool.false_eq_true, if_false]
    rw [ih h.2]

theorem parseLine_entry (k v : String)
    (h : containsSub [':', '\t'] k.data = false) :
    parseLine (k.data ++ [':', '\t'] ++ v.data) = (k, v) := by
  unfold parseLine
  rw [show k.data ++ [':', '\t'] ++ v.data = k.data ++ ':' :: '\t' :: v.data by
    simp, splitFirstSep_junction _ _ h]

/-!  ## Claim C9  -/

/-- Claim C9 counterexample: with a reaction id containing a newline the
written file does not have one line per entry and the read-back differs
from the map; a value containing a newline breaks the round trip as
well. -/
theorem result_file_roundtrip_counterexample :
    readEntryLines (writeEntryLines [("a\nb", "1")]) ≠ [("a\nb", "1")] ∧
    (splitLines (writeEntryLines [("a\nb", "1")])).length ≠
      [("a\nb", "1")].length + 1 ∧
    readEntryLines (writeEntryLines [("a", "1\n2")]) ≠ [("a", "1\n2")] :=
  ⟨by decide, by decide, by decide⟩

/-- Claim C9 (amended): provided no id contains a newline or the `":\t"`
separator and no value contains a newline, the written file has exactly
one `id:\tvalue` line per map entry in insertion order (plus the final
newline), and reading it back — splitting each line at the first `":\t"`
— reconstructs exactly the original (id, value) pairs in order. -/
theorem result_file_roundtrip_wellformed (entries : List (String × String))
    (h : ∀ p ∈ entries, '\n' ∉ p.1.data ∧ '\n' ∉ p.2.data ∧
      containsSub [':', '\t'] p.1.data = false) :
    splitLines (writeEntryLines entries) =
      entries.map (fun p => p.1.data ++ [':', '\t'] ++ p.2.data) ++ [[]] ∧
    readEntryLines (writeEntryLines entries) = entries := by
  induction entries with
  | nil => exact ⟨rfl, rfl⟩
  | cons e rest ih =>
    obtain ⟨k, v⟩ := e
    obtain ⟨hk, hv, hsep⟩ := h (k, v) (List.mem_cons_self _ _)
    have hrest := ih (fun p hp => h p (List.mem_cons_of_mem _ hp))
    have hnl : '\n' ∉ k.data ++ [':', '\t'] ++ v.data := by
      intro hm
      rcases List.mem_append.mp hm with hm | hm
      · rcases List.mem_append.mp hm with hm | hm
        · exact hk hm
        · exact absurd hm (by decide)
      · exact hv hm
    have hshape : writeEntryLines ((k, v) :: rest) =
        (k.data ++ [':', '\t'] ++ v.data) ++ '\n' :: writeEntryLines rest := by
      simp [writeEntryLines]
    have hne : k.data ++ [':', '\t'] ++ v.data ≠ [] := by
      cases hkd : k.data <;> simp
    constructor
    · rw [hshape, splitLines_append _ _ hnl, hrest.1]
      simp
    · unfold readEntryLines
      rw [hshape, splitLines_append _ _ hnl]
      rw [List.filter_cons_of_pos (by simp [hne])]
      rw [List.map_cons, parseLine_entry k v hsep]
      exact congrArg ((k, v) :: ·) hrest.2

/-- Witness for the amended C9 theorem on a two-entry map. -/
theorem result_file_roundtrip_wellformed_witness :
    readEntryLines (writeEntryLines entriesW) = entriesW ∧
    splitLines (writeEntryLines entriesW) =
      entriesW.map (fun p => p.1.data ++ [':', '\t'] ++ p.2.data) ++ [[]] :=
  ⟨(result_file_roundtrip_wellformed entriesW (by decide)).2,
   (result_file_roundtrip_wellformed entriesW (by decide)).1⟩

/-!  ## Lemmas about `Model` lookups and bound updates  -/

theorem getReaction_id {m : Model} {rid : String} {r : Reaction}
    (hr : m.getReaction rid = some r) : r.id = rid := by
  have := List.find?_some hr
  simpa using this

theorem getReaction_mem {m : Model} {rid : String} {r : Reaction}
    (hr : m.getReaction rid = some r) : r ∈ m.reactions :=
  List.mem_of_find?_eq_some hr

/-- Under unique reaction ids, any member of the collection sharing the id
of a `get_by_id` result is that result. -/
theorem eq_of_id_eq (m : Model) (hnd : nodupIds m) {rid : String}
    {r q : Reaction} (hr : m.getReaction rid = some r)
    (hq : q ∈ m.reactions) (hid : q.id = rid) : q = r :=
  List.inj_on_of_nodup_map hnd hq (getReaction_mem hr)
    (by rw [hid, getReaction_id hr])

/-- `setBounds` never touches the metabolite table. -/
theorem setBounds_metabolites (m : Model) (rid : String) (b : Rat × Rat) :
    (m.setBounds rid b).metabolites = m.metabolites := rfl

/-- Replacing a reaction's fields by its own fields is the identity. -/
theorem reaction_eta (r : Reaction) : (⟨r.id, r.lb, r.ub⟩ : Reaction) = r := rfl

/-- Pinning a reaction's bounds and then restoring the bounds that
`get_by_id` reported beforehand is the identity on the model, given unique
reaction ids. -/
theorem setBounds_restore (m : Model) (rid : String) (b : Rat × Rat)
    (r : Reaction) (hnd : nodupIds m) (hr : m.getReaction rid = some r) :
    (m.setBounds rid b).setBounds rid (r.lb, r.ub) = m := by
  have hpt : ∀ q ∈ m.reactions,
      ((fun q : Reaction =>
          if q.id == rid then { q with lb := r.lb, ub := r.ub } else q) ∘
        (fun q : Reaction =>
          if q.id == rid then { q with lb := b.1, ub := b.2 } else q)) q = q := by
    intro q hq
    by_cases hid : q.id = rid
    · have hqr : q = r := eq_of_id_eq m hnd hr hq hid
      subst hqr
      simp only [Function.comp, hid, beq_self_eq_true, if_true, if_pos]
      rw [← hid]
    · simp [Function.comp, hid]
  obtain ⟨nm, rxns, mets, slv, cns⟩ := m
  simp only [Model.setBounds, Model.mk.injEq, true_and, and_true]
  rw [List.map_map, List.map_congr_left hpt]
  simp

/-- One Part 2 iteration leaves the model exactly as it found it (the
save / pin / restore discipline), given unique reaction ids. -/
theorem part2Step_model (solve : Solver) (st : P2State) (rid : String)
    (flux : Rat) (st' : P2State) (hnd : nodupIds st.model)
    (h : part2Step solve st rid flux = some st') : st'.model = st.model := by
  simp only [part2Step] at h
  split at h
  · split at h
    · exact absurd h (by simp)
    · rename_i r hr
      split at h
      · exact absurd h (by simp)
      · rename_i mrxns hmet
        split at h
        · exact absurd h (by simp)
        · rename_i d tr hloop
          cases h
          exact setBounds_restore st.model rid (flux, flux) r hnd hr
  · cases h
    rfl

/-- The whole Part 2 loop leaves the model exactly as it started, given
unique reaction ids. -/
theorem part2_model (solve : Solver) (m : Model) (pairs : List (String × Rat))
    (st' : P2State) (hnd : nodupIds m) (h : part2 solve m pairs = some st') :
    st'.model = m := by
  suffices H : ∀ (ps : List (String × Rat)) (st : P2State), st.model = m →
      List.foldlM (fun st p => part2Step solve st p.1 p.2) st ps = some st' →
      st'.model = m by
    exact H pairs ⟨m, [], []⟩ rfl h
  intro ps
  induction ps with
  | nil =>
    intro st hst hfold
    simp only [List.foldlM_nil] at hfold
    cases hfold
    exact hst
  | cons p rest ih =>
    intro st hst hfold
    rw [List.foldlM_cons] at hfold
    cases hstep : part2Step solve st p.1 p.2 with
    | none => rw [hstep] at hfold; exact absurd hfold (by simp)
    | some st₁ =>
      rw [hstep] at hfold
      simp only [Option.bind_eq_bind, Option.some_bind] at hfold
      exact ih st₁
        ((part2Step_model solve st p.1 p.2 st₁ (hst ▸ hnd) hstep).trans hst)
        hfold

/-!  ## Claim C1  -/

/-- Claim C1: in `optimize_model`, for every transporter whose maximized
flux is non-zero the bounds after the Part 2 loop equal the bounds
immediately before that transporter was pinned, and no bound change from
one transporter's propagation is visible when a later transporter is
processed: each Part 2 iteration returns the model in exactly the state it
received it (so every iteration starts from, and the loop ends at, the
initial model `m`), given the unique-reaction-id invariant of the data
model. -/
theorem optimize_model_part2_restores_transporter_bounds
    (solve : Solver) (m : Model) (pairs : List (String × Rat))
    (hnd : nodupIds m) :
    (∀ (st st' : P2State) (rid : String) (flux : Rat), st.model = m →
        part2Step solve st rid flux = some st' → st'.model = m) ∧
    (∀ st', part2 solve m pairs = some st' → st'.model = m) := by
  constructor
  · intro st st' rid flux hst hstep
    exact (part2Step_model solve st rid flux st' (hst ▸ hnd) hstep).trans hst
  · intro st' h
    exact part2_model solve m pairs st' hnd h

/-- Witness for C1: a concrete transporter with maximum 1 is pinned, its
IEX reaction minimized, and the final model equals the initial one. -/
theorem optimize_model_part2_restores_transporter_bounds_witness :
    nodupIds mW ∧ part2 solveW mW [("UFEt_a", 1)] = some stW ∧
    stW.model = mW :=
  ⟨by decide, by decide,
   (optimize_model_part2_restores_transporter_bounds solveW mW
     [("UFEt_a", 1)] (by decide)).2 stW (by decide)⟩

/-!  ## Lemmas for Claim C2  -/

theorem dinsert_keys {α : Type} (d : List (String × α)) (k : String) (v : α)
    (a : String) (h : a ∈ (dinsert d k v).map Prod.fst) :
    a ∈ d.map Prod.fst ∨ a = k := by
  unfold dinsert at h
  split at h
  · rw [List.map_map] at h
    obtain ⟨p, hp, hpa⟩ := List.mem_map.mp h
    by_cases hpk : p.1 = k
    · right
      simp [Function.comp, hpk] at hpa
      exact hpa.symm
    · left
      simp only [Function.comp, beq_iff_eq] at hpa
      rw [if_neg hpk] at hpa
      exact List.mem_map.mpr ⟨p, hp, hpa⟩
  · rw [List.map_append] at h
    rcases List.mem_append.mp h with h | h
    · exact Or.inl h
    · right
      simpa using h

theorem iexLoop_keys (solve : Solver) (m1 : Model) :
    ∀ (lst : List String) (d : List (String × Rat)) (tr : List SolveCall)
      (d' : List (String × Rat)) (tr' : List SolveCall),
      iexLoop solve m1 lst d tr = some (d', tr') →
      ∀ k ∈ d'.map Prod.fst,
        k ∈ d.map Prod.fst ∨ (k ∈ lst ∧ strContains k "IEX" = true) := by
  intro lst
  induction lst with
  | nil =>
    intro d tr d' tr' h k hk
    cases h
    exact Or.inl hk
  | cons rid rest ih =>
    intro d tr d' tr' h k hk
    simp only [iexLoop] at h
    split at h
    · rename_i hiex
      split at h
      · exact absurd h (by simp)
      · rename_i r hr
        rcases ih _ _ _ _ h k hk with hmem | ⟨hlst, hx⟩
        · rcases dinsert_keys _ _ _ _ hmem with h1 | h2
          · exact Or.inl h1
          · right
            have hrid : r.id = rid := getReaction_id hr
            rw [h2, hrid]
            exact ⟨List.mem_cons_self _ _, hrid ▸ hiex⟩
        · exact Or.inr ⟨List.mem_cons_of_mem _ hlst, hx⟩
    · rcases ih _ _ _ _ h k hk with hmem | ⟨hlst, hx⟩
      · exact Or.inl hmem
      · exact Or.inr ⟨List.mem_cons_of_mem _ hlst, hx⟩

/-- A Part 2 iteration never changes the metabolite table. -/
theorem part2Step_metabolites (solve : Solver) (st : P2State) (rid : String)
    (flux : Rat) (st' : P2State)
    (h : part2Step solve st rid flux = some st') :
    st'.model.metabolites = st.model.metabolites := by
  simp only [part2Step] at h
  split at h
  · split at h
    · exact absurd h (by simp)
    · split at h
      · exact absurd h (by simp)
      · split at h
        · exact absurd h (by simp)
        · cases h
          rfl
  · cases h
    rfl

/-- The keys one Part 2 iteration can add to the minimized-flux map are
the IEX reactions of the transporter's derived metabolite, and only when
the transporter's maximum is non-zero. -/
theorem part2Step_keys (solve : Solver) (st : P2State) (rid : String)
    (flux : Rat) (st' : P2State)
    (h : part2Step solve st rid flux = some st') :
    ∀ k ∈ st'.dict.map Prod.fst,
      k ∈ st.dict.map Prod.fst ∨
        (flux ≠ 0 ∧ k ∈ iexCandidates st.model.metabolites rid) := by
  simp only [part2Step] at h
  split at h
  · rename_i hz
    split at h
    · exact absurd h (by simp)
    · split at h
      · exact absurd h (by simp)
      · rename_i mrxns hmet
        split at h
        · exact absurd h (by simp)
        · rename_i d tr hloop
          cases h
          intro k hk
          rcases iexLoop_keys solve _ _ _ _ _ _ hloop k hk with hmem | ⟨hlst, hx⟩
          · exact Or.inl hmem
          · right
            refine ⟨hz, ?_⟩
            unfold iexCandidates
            have hmet' : (st.model.metabolites.find?
                (fun p => p.1 == metaboliteOf rid)).map (fun p => p.2) =
                some mrxns := hmet
            rw [hmet']
            exact List.mem_filter.mpr ⟨hlst, hx⟩
  · cases h
    intro k hk
    exact Or.inl hk

/-- Over a whole Part 2 run, every key of the minimized-flux map comes
from the IEX reactions of a transporter whose maximum was non-zero. -/
theorem part2_keys (solve : Solver) (m : Model) (pairs : List (String × Rat))
    (st' : P2State) (h : part2 solve m pairs = some st') :
    ∀ k ∈ st'.dict.map Prod.fst,
      ∃ p ∈ pairs, p.2 ≠ 0 ∧ k ∈ iexCandidates m.metabolites p.1 := by
  suffices H : ∀ (ps : List (String × Rat)) (st : P2State),
      st.model.metabolites = m.metabolites →
      List.foldlM (fun st p => part2Step solve st p.1 p.2) st ps = some st' →
      ∀ k ∈ st'.dict.map Prod.fst,
        k ∈ st.dict.map Prod.fst ∨
          ∃ p ∈ ps, p.2 ≠ 0 ∧ k ∈ iexCandidates m.metabolites p.1 by
    intro k hk
    rcases H pairs ⟨m, [], []⟩ rfl h k hk with h0 | h1
    · exact absurd h0 (by simp)
    · exact h1
  intro ps
  induction ps with
  | nil =>
    intro st hst hfold k hk
    simp only [List.foldlM_nil] at hfold
    cases hfold
    exact Or.inl hk
  | cons p rest ih =>
    intro st hst hfold k hk
    rw [List.foldlM_cons] at hfold
    cases hstep : part2Step solve st p.1 p.2 with
    | none => rw [hstep] at hfold; exact absurd hfold (by simp)
    | some st₁ =>
      rw [hstep] at hfold
      simp only [Option.bind_eq_bind, Option.some_bind] at hfold
      have hmet₁ : st₁.model.metabolites = m.metabolites :=
        (part2Step_metabolites solve st p.1 p.2 st₁ hstep).trans hst
      rcases ih st₁ hmet₁ hfold k hk with h1 | h2
      · rcases part2Step_keys solve st p.1 p.2 st₁ hstep k h1 with ha | ⟨hz, hc⟩
        · exact Or.inl ha
        · exact Or.inr ⟨p, List.mem_cons_self _ _, hz, hst ▸ hc⟩
      · obtain ⟨p', hp', hz', hc'⟩ := h2
        exact Or.inr ⟨p', List.mem_cons_of_mem _ hp', hz', hc'⟩

/-!  ## Claim C2  -/

/-- Claim C2: in `optimize_model`, a transporter whose maximized flux is
exactly `0.0` is skipped entirely in Part 2 — the iteration returns the
state unchanged (no bounds saved, pinned or modified, no minimize solve,
no trace entry, no map entry) — and every key of the final minimized-IEX
map stems from the IEX reactions of the derived metabolite of some
transporter whose maximized flux was non-zero. -/
theorem optimize_model_zero_flux_transporter_skipped (solve : Solver) :
    (∀ (st : P2State) (rid : String), part2Step solve st rid 0 = some st) ∧
    ∀ (m : Model) (pairs : List (String × Rat)) (st' : P2State),
      part2 solve m pairs = some st' →
      ∀ k ∈ st'.dict.map Prod.fst,
        ∃ p ∈ pairs, p.2 ≠ 0 ∧ k ∈ iexCandidates m.metabolites p.1 := by
  constructor
  · intro st rid
    simp [part2Step]
  · intro m pairs st' h
    exact part2_keys solve m pairs st' h

/-- Witness for C2: a zero-flux transporter leaves the state untouched,
and the key recorded for the non-zero transporter of `mW` is an IEX
candidate of its metabolite. -/
theorem optimize_model_zero_flux_transporter_skipped_witness :
    part2Step solveW ⟨mW, [], []⟩ "UFEt_x" 0 = some ⟨mW, [], []⟩ ∧
    (1 : Rat) ≠ 0 ∧ "IEX_a" ∈ iexCandidates mW.metabolites "UFEt_a" := by
  refine ⟨(optimize_model_zero_flux_transporter_skipped solveW).1 ⟨mW, [], []⟩
    "UFEt_x", ?_⟩
  have h := (optimize_model_zero_flux_transporter_skipped solveW).2 mW
    [("UFEt_a", 1)] stW (by decide) "IEX_a" (by decide)
  obtain ⟨p, hp, hz, hc⟩ := h
  have hp' : p = ("UFEt_a", (1 : Rat)) := by simpa using hp
  subst hp'
  exact ⟨hz, hc⟩

/-!  ## Lemmas for Claim C8  -/

/-- The diet-override fold acts pointwise: iterating the reaction list and
updating through `get_by_id` amounts to patching each listed reaction in
place, provided the listed reactions are uniquely identified. -/
theorem addDiet_fold (l : List Reaction) : ∀ (m : Model),
    (∀ r ∈ l, ∀ q ∈ m.reactions, q.id = r.id → q = r) →
    (l.map (fun r => r.id)).Nodup →
    (l.foldl (fun acc r =>
        if dietCond r then acc.setBounds r.id (-1000, 0) else acc) m).reactions
      = m.reactions.map (fun q =>
        if q ∈ l ∧ dietCond q then { q with lb := -1000, ub := 0 } else q) := by
  induction l with
  | nil =>
    intro m _ _
    simp
  | cons r rest ih =>
    intro m hinj hnd
    rw [List.foldl_cons]
    have hndr : r.id ∉ rest.map (fun r => r.id) := by
      have := hnd
      simp only [List.map_cons, List.nodup_cons] at this
      exact this.1
    have hndrest : (rest.map (fun r => r.id)).Nodup := by
      have := hnd
      simp only [List.map_cons, List.nodup_cons] at this
      exact this.2
    by_cases hc : dietCond r = true
    · rw [if_pos hc]
      have hm' : (m.setBounds r.id (-1000, 0)).reactions =
          m.reactions.map (fun q =>
            if q.id == r.id then { q with lb := -1000, ub := 0 } else q) := rfl
      have hinj' : ∀ r' ∈ rest, ∀ q' ∈ (m.setBounds r.id (-1000, 0)).reactions,
          q'.id = r'.id → q' = r' := by
        intro r' hr' q' hq' hids
        rw [hm'] at hq'
        obtain ⟨q, hq, hfq⟩ := List.mem_map.mp hq'
        by_cases hqid : q.id = r.id
        · exfalso
          have : q'.id = r.id := by
            rw [← hfq]
            simp [hqid]
          apply hndr
          rw [← this, hids]
          exact List.mem_map.mpr ⟨r', hr', rfl⟩
        · rw [← hfq]
          simp only [beq_iff_eq, if_neg hqid]
          rw [← hfq] at hids
          simp only [beq_iff_eq, if_neg hqid] at hids
          exact hinj r' (List.mem_cons_of_mem _ hr') q hq hids
      rw [ih (m.setBounds r.id (-1000, 0)) hinj' hndrest, hm', List.map_map]
      apply List.map_congr_left
      intro q hq
      by_cases hqid : q.id = r.id
      · have hqr : q = r := hinj r (List.mem_cons_self _ _) q hq hqid
        subst hqr
        have hqpatch : ({ q with lb := -1000, ub := 0 } : Reaction) ∉ rest := by
          intro hmem
          exact hndr (List.mem_map.mpr ⟨_, hmem, rfl⟩)
        simp [Function.comp, hqpatch, hc, List.mem_cons]
      · have hqr : ¬(q = r) := fun hh => hqid (hh ▸ rfl)
        simp only [Function.comp, beq_iff_eq, if_neg hqid]
        simp [List.mem_cons, hqr]
    · rw [if_neg hc]
      rw [ih m (fun r' hr' => hinj r' (List.mem_cons_of_mem _ hr')) hndrest]
      apply List.map_congr_left
      intro q hq
      by_cases hqr : q = r
      · subst hqr
        simp [hc]
      · simp [List.mem_cons, hqr]

/-!  ## Claim C8  -/

/-- Claim C8: with `add_1ba` set, the diet-override step forces a
reaction's bounds to `(-1000.0, 0.0)` exactly when its id contains
`"Diet_"`, its lower bound at the time of the check is non-zero, and its
id contains one of `"dgchol"`, `"gchola"`, `"tchola"`, `"tdchola"`; every
other reaction is untouched (the step is the pointwise `dietPatch`), and
with the flag unset the step changes nothing. -/
theorem optimize_model_diet_override_pointwise (m : Model)
    (hnd : nodupIds m) :
    (addDietBounds m).reactions = m.reactions.map dietPatch ∧
    ∀ (ext : Externals) (m' : Model),
      preModel ext m' false = ext.setDefaultBounds m' := by
  constructor
  · unfold addDietBounds
    rw [addDiet_fold m.reactions m
      (fun r hr q hq hid => List.inj_on_of_nodup_map hnd hq hr hid) hnd]
    exact List.map_congr_left (fun q hq => by simp [dietPatch, hq])
  · intro ext m'
    rfl

/-- Witness for C8 on a concrete model with two diet reactions (one
bile-acid, one not) and an unrelated exchange reaction. -/
theorem optimize_model_diet_override_pointwise_witness :
    nodupIds mDiet ∧
    (addDietBounds mDiet).reactions = mDiet.reactions.map dietPatch :=
  ⟨by decide, (optimize_model_diet_override_pointwise mDiet (by decide)).1⟩

/-!  ## Lemmas for Claims C4 and C7 (the mbx sweeps)  -/

/-- Every solve call a sweep records runs against the very model the sweep
was given: the sweep never mutates it (only the objective is reassigned
between solves). -/
theorem sweep_trace_state (solve : Solver) (m : Model) (sense : Sense) :
    ∀ (lst : List String) (d : List (String × Rat)) (tr : List SolveCall)
      (d' : List (String × Rat)) (tr' : List SolveCall),
      sweep solve m sense lst d tr = some (d', tr') →
      ∀ c ∈ tr', c ∈ tr ∨ c.state = m := by
  intro lst
  induction lst with
  | nil =>
    intro d tr d' tr' h c hc
    cases h
    exact Or.inl hc
  | cons rid rest ih =>
    intro d tr d' tr' h c hc
    simp only [sweep] at h
    split at h
    · exact absurd h (by simp)
    · rcases ih _ _ _ _ h c hc with hin | hstate
      · rcases List.mem_append.mp hin with hin | hin
        · exact Or.inl hin
        · right
          have : c = ⟨m, rid, sense, solve m rid sense⟩ := by simpa using hin
          rw [this]
      · exact Or.inr hstate

theorem dinsert_not_mem {α : Type} (d : List (String × α)) (k : String)
    (v : α) (hk : k ∉ d.map Prod.fst) : dinsert d k v = d ++ [(k, v)] := by
  unfold dinsert
  rw [if_neg]
  intro hany
  obtain ⟨p, hp, hpk⟩ := List.any_eq_true.mp hany
  exact hk (List.mem_map.mpr ⟨p, hp, by simpa using hpk⟩)

/-- A successful sweep records exactly the listed reaction ids, in order,
both as keys of the result map and as objectives of the trace. -/
theorem sweep_keys (solve : Solver) (m : Model) (sense : Sense) :
    ∀ (lst : List String) (d : List (String × Rat)) (tr : List SolveCall)
      (d' : List (String × Rat)) (tr' : List SolveCall),
      lst.Nodup → (∀ rid ∈ lst, rid ∉ d.map Prod.fst) →
      sweep solve m sense lst d tr = some (d', tr') →
      d'.map Prod.fst = d.map Prod.fst ++ lst ∧
        tr'.map SolveCall.objective = tr.map SolveCall.objective ++ lst := by
  intro lst
  induction lst with
  | nil =>
    intro d tr d' tr' _ _ h
    cases h
    simp
  | cons rid rest ih =>
    intro d tr d' tr' hnd hdisj h
    simp only [sweep] at h
    split at h
    · exact absurd h (by simp)
    · have hins : dinsert d rid (solve m rid sense) = d ++ [(rid, solve m rid sense)] :=
        dinsert_not_mem d rid _ (hdisj rid (List.mem_cons_self _ _))
      rw [hins] at h
      have hdisj' : ∀ rid' ∈ rest, rid' ∉ (d ++ [(rid, solve m rid sense)]).map Prod.fst := by
        intro rid' hr'
        rw [List.map_append]
        intro hmem
        rcases List.mem_append.mp hmem with hmem | hmem
        · exact hdisj rid' (List.mem_cons_of_mem _ hr') hmem
        · have : rid' = rid := by simpa using hmem
          rw [List.nodup_cons] at hnd
          exact hnd.1 (this ▸ hr')
      have := ih _ _ _ _ ((List.nodup_cons.mp hnd).2) hdisj' h
      constructor
      · rw [this.1, List.map_append]
        simp
      · rw [this.2, List.map_append]
        simp

/-!  ## Claim C4  -/

/-- Claim C4: in `optimize_model_mbx`, every solve of both sweeps (the
minimize sweep and the maximize sweep) runs against exactly the
post-constraint-injection model state — identical bounds and identical
injected constraints for the minimize and the maximize solve of every
swept reaction; between constraint injection and the end of both sweeps
the only model mutation is objective reassignment. -/
theorem mbx_sweep_single_state (ext : MbxExternals) (input : ModelInput)
    (s v ro p : Bool) (r : MbxRun)
    (h : optimize_model_mbx ext input s v ro p = Except.ok r) :
    ∀ c ∈ r.traceMin ++ r.traceMax,
      c.state = mbxConstrainedModel ext (resolvedModelMbx ext input) := by
  have hcore : ∀ (m0 : Model),
      mbxCore ext m0 s v ro p = Except.ok r →
      ∀ c ∈ r.traceMin ++ r.traceMax,
        c.state = mbxConstrainedModel ext m0 := by
    intro m0 hc c hmem
    simp only [mbxCore] at hc
    split at hc
    · exact absurd hc (by simp)
    · rename_i dmin trmin hmin
      split at hc
      · exact absurd hc (by simp)
      · rename_i dmax trmax hmax
        cases hc
        rcases List.mem_append.mp hmem with hm | hm
        · rcases sweep_trace_state ext.solve _ Sense.minimize _ _ _ _ _ hmin c hm
            with h0 | hs
          · exact absurd h0 (by simp)
          · exact hs
        · rcases sweep_trace_state ext.solve _ Sense.maximize _ _ _ _ _ hmax c hm
            with h0 | hs
          · exact absurd h0 (by simp)
          · exact hs
  cases input with
  | model m => exact hcore m h
  | path q => exact hcore (ext.loadModel q) h
  | other => exact absurd h (by simp [optimize_model_mbx])

/-- Witness for C4: the first minimize solve of a concrete mbx run is
performed on the constrained model. -/
theorem mbx_sweep_single_state_witness :
    optimize_model_mbx extMbxW (ModelInput.model mFex) false false true false
      = Except.ok mbxRunW ∧
    callW.state =
      mbxConstrainedModel extMbxW
        (resolvedModelMbx extMbxW (ModelInput.model mFex)) :=
  ⟨rfl,
   mbx_sweep_single_state extMbxW (ModelInput.model mFex) false false true
     false mbxRunW rfl callW (by decide)⟩

/-!  ## Claim C7  -/

/-- Claim C7: in `optimize_model_mbx` the swept reactions are exactly
those whose id begins with `"EX_"` and ends with `"[fe]"` (`fexIds`, in
the model's reaction-collection order): the objectives of both sweeps are
that id list, and both returned result maps have exactly that key list,
in that order, under the unique-reaction-id invariant. -/
theorem mbx_sweep_keys_are_fex_ids (ext : MbxExternals) (input : ModelInput)
    (s v ro p : Bool) (r : MbxRun)
    (hnd : nodupIds (mbxConstrainedModel ext (resolvedModelMbx ext input)))
    (h : optimize_model_mbx ext input s v ro p = Except.ok r) :
    r.traceMin.map SolveCall.objective =
      fexIds (mbxConstrainedModel ext (resolvedModelMbx ext input)) ∧
    r.traceMax.map SolveCall.objective =
      fexIds (mbxConstrainedModel ext (resolvedModelMbx ext input)) ∧
    ∀ dmin dmax, r.ret = some (dmin, dmax) →
      dmin.map Prod.fst =
        fexIds (mbxConstrainedModel ext (resolvedModelMbx ext input)) ∧
      dmax.map Prod.fst =
        fexIds (mbxConstrainedModel ext (resolvedModelMbx ext input)) := by
  have hfnd : ∀ (m : Model), nodupIds m → (fexIds m).Nodup := by
    intro m hm
    exact hm.sublist (List.Sublist.map _ (List.filter_sublist m.reactions))
  have hcore : ∀ (m0 : Model),
      nodupIds (mbxConstrainedModel ext m0) →
      mbxCore ext m0 s v ro p = Except.ok r →
      r.traceMin.map SolveCall.objective = fexIds (mbxConstrainedModel ext m0) ∧
      r.traceMax.map SolveCall.objective = fexIds (mbxConstrainedModel ext m0) ∧
      ∀ dmin dmax, r.ret = some (dmin, dmax) →
        dmin.map Prod.fst = fexIds (mbxConstrainedModel ext m0) ∧
        dmax.map Prod.fst = fexIds (mbxConstrainedModel ext m0) := by
    intro m0 hnd0 hc
    simp only [mbxCore] at hc
    split at hc
    · exact absurd hc (by simp)
    · rename_i dmin trmin hmin
      split at hc
      · exact absurd hc (by simp)
      · rename_i dmax trmax hmax
        have hkmin := sweep_keys ext.solve _ Sense.minimize _ _ _ _ _
          (hfnd _ hnd0) (by intro rid _ hmem; simp at hmem) hmin
        have hkmax := sweep_keys ext.solve _ Sense.maximize _ _ _ _ _
          (hfnd _ hnd0) (by intro rid _ hmem; simp at hmem) hmax
        cases hc
        refine ⟨by simpa using hkmin.2, by simpa using hkmax.2, ?_⟩
        intro dmin' dmax' hret
        simp only at hret
        split at hret
        · cases hret
          exact ⟨by simpa using hkmin.1, by simpa using hkmax.1⟩
        · exact absurd hret (by simp)
  cases input with
  | model m => exact hcore m hnd h
  | path q => exact hcore (ext.loadModel q) hnd h
  | other => exact absurd h (by simp [optimize_model_mbx])

/-- Witness for C7 on the concrete mbx run over `mFex`. -/
theorem mbx_sweep_keys_are_fex_ids_witness :
    nodupIds (mbxConstrainedModel extMbxW
      (resolvedModelMbx extMbxW (ModelInput.model mFex))) ∧
    mbxRunW.traceMin.map SolveCall.objective =
      fexIds (mbxConstrainedModel extMbxW
        (resolvedModelMbx extMbxW (ModelInput.model mFex))) :=
  ⟨by decide,
   (mbx_sweep_keys_are_fex_ids extMbxW (ModelInput.model mFex) false false
     true false mbxRunW (by decide) rfl).1⟩

/-!  ## Claim C5  -/

/-- Claim C5 counterexample: an `optimize_model` invocation with the
contract's default `return_outputs = False` runs to completion
(`Except.ok`) yet returns `None` instead of the three result mappings. -/
theorem optimize_model_return_counterexample :
    retView (optimize_model extW (ModelInput.model emptyModel) false false
      false false) = Except.ok none := rfl

/-- Claim C5 (amended): a completed `optimize_model` run returns the three
result mappings exactly when `return_outputs` is true; with
`return_outputs` false (the contract's default) it returns `None`. -/
theorem optimize_model_returns_iff_requested (ext : Externals)
    (input : ModelInput) (a s p : Bool) :
    (∀ r, optimize_model ext input a s true p = Except.ok r →
      r.ret.isSome = true) ∧
    (∀ r, optimize_model ext input a s false p = Except.ok r →
      r.ret = none) := by
  have hcore : ∀ (m : Model),
      (∀ r, optimizeModelCore ext m a s true p = Except.ok r →
        r.ret.isSome = true) ∧
      (∀ r, optimizeModelCore ext m a s false p = Except.ok r →
        r.ret = none) := by
    intro m
    constructor
    · intro r h
      simp only [optimizeModelCore] at h
      split at h
      · exact absurd h (by simp)
      · cases h
        rfl
    · intro r h
      simp only [optimizeModelCore] at h
      split at h
      · exact absurd h (by simp)
      · cases h
        rfl
  cases input with
  | model m => exact hcore m
  | path q => exact hcore (ext.loadModel q)
  | other =>
    constructor
    · intro r h
      exact absurd h (by simp [optimize_model])
    · intro r h
      exact absurd h (by simp [optimize_model])

/-- Witness for the amended C5 theorem: the same model run with
`return_outputs = True` yields the mappings, with `False` yields `None`. -/
theorem optimize_model_returns_iff_requested_witness :
    (optimize_model extW (ModelInput.model mW) false false true false =
        Except.ok optRunW ∧ optRunW.ret.isSome = true) ∧
    (optimize_model extW (ModelInput.model mW) false false false false =
        Except.ok optRunW0 ∧ optRunW0.ret = none) :=
  ⟨⟨rfl, (optimize_model_returns_iff_requested extW (ModelInput.model mW)
      false false false).1 optRunW rfl⟩,
   ⟨rfl, (optimize_model_returns_iff_requested extW (ModelInput.model mW)
      false false false).2 optRunW0 rfl⟩⟩

/-!  ## Claim C6  -/

/-- Claim C6: both workflows raise the bad-input `ValueError` exactly when
`model_input` is neither a loaded model nor a path string; the error is
raised by the `isinstance` dispatch before any model mutation, solve, or
file write (the run produces nothing but the error), and inputs of the
two accepted types never produce that error at input resolution. -/
theorem workflows_invalid_input_error (ext : Externals)
    (mext : MbxExternals) (a s v ro p : Bool) (m : Model) (q : String) :
    optimize_model ext ModelInput.other a s ro p =
      Except.error WorkflowError.invalidInput ∧
    optimize_model_mbx mext ModelInput.other s v ro p =
      Except.error WorkflowError.invalidInput ∧
    isInvalidInput (optimize_model ext (ModelInput.model m) a s ro p) = false ∧
    isInvalidInput (optimize_model ext (ModelInput.path q) a s ro p) = false ∧
    isInvalidInput (optimize_model_mbx mext (ModelInput.model m) s v ro p)
      = false ∧
    isInvalidInput (optimize_model_mbx mext (ModelInput.path q) s v ro p)
      = false := by
  have hcore : ∀ (m' : Model),
      isInvalidInput (optimizeModelCore ext m' a s ro p) = false := by
    intro m'
    simp only [optimizeModelCore]
    split <;> rfl
  have hcoreM : ∀ (m' : Model),
      isInvalidInput (mbxCore mext m' s v ro p) = false := by
    intro m'
    simp only [mbxCore]
    split
    · rfl
    · split <;> rfl
  exact ⟨rfl, rfl, hcore m, hcore (ext.loadModel q), hcoreM m,
    hcoreM (mext.loadModel q)⟩

/-!  ## Claim C10  -/

/-- Claim C10: two runs of either workflow that differ only in the
`silent`, `verbose` and `parallel` flags produce identical returned result
mappings and identical written-file contents — those flags influence
console printing only. -/
theorem workflow_flags_affect_printing_only (ext : Externals)
    (mext : MbxExternals) (input : ModelInput)
    (a ro s₁ p₁ s₂ p₂ v₁ v₂ : Bool) :
    optView (optimize_model ext input a s₁ ro p₁) =
      optView (optimize_model ext input a s₂ ro p₂) ∧
    mbxView (optimize_model_mbx mext input s₁ v₁ ro p₁) =
      mbxView (optimize_model_mbx mext input s₂ v₂ ro p₂) := by
  have hcore : ∀ (m : Model),
      optView (optimizeModelCore ext m a s₁ ro p₁) =
        optView (optimizeModelCore ext m a s₂ ro p₂) := by
    intro m
    simp only [optimizeModelCore]
    cases p2Run ext m a <;> rfl
  have hcoreM : ∀ (m : Model),
      mbxView (mbxCore mext m s₁ v₁ ro p₁) =
        mbxView (mbxCore mext m s₂ v₂ ro p₂) := by
    intro m
    simp only [mbxCore]
    cases sweepAll mext.solve (mbxConstrainedModel mext m) Sense.minimize with
    | none => rfl
    | some dt =>
      obtain ⟨dmin, trmin⟩ := dt
      cases sweepAll mext.solve (mbxConstrainedModel mext m) Sense.maximize with
      | none => rfl
      | some dt' =>
        obtain ⟨dmax, trmax⟩ := dt'
        rfl
  cases input with
  | model m => exact ⟨hcore m, hcoreM m⟩
  | path q => exact ⟨hcore (ext.loadModel q), hcoreM (mext.loadModel q)⟩
  | other => exact ⟨rfl, rfl⟩

end CobraGemm
